import Mathlib

/-!
# Shallow embedding of the `swimmer` object pool (src/src/lib.rs, builder.rs, recyclable.rs)

The crate implements a thread-safe object pool. The pool keeps one
independent stack (`Vec<T>`) of spare values per thread, held in a
`thread_local::ThreadLocal`/`CachedThreadLocal`. We model the thread-local
map as an association list from thread ids to lists of values, with the
head of each list playing the role of the top of the Rust `Vec` stack
(Rust pushes/pops at the end of the `Vec`; our lists push/pop at the
head, which realizes the same LIFO discipline).

Every pool operation in the Rust source acts on the calling thread's
entry only (`self.values.get_or(|| init())`); our embedding therefore
passes the calling thread id explicitly. `get_or` inserts a fresh empty
entry for a thread the first time that thread touches the pool; the
`Storage.set`-based update below inserts the entry on first use in the
same way.

The Rust supplier is a `Fn() -> T` closure; it is modelled as a pure
function `Unit → T`. `Recyclable::recycle(&mut self)` is modelled as a
pure function `T → T` on the value.
-/

namespace Swimmer

/-- Thread identity: key of the `ThreadLocal` map. -/
abbrev ThreadId := Nat

/-- The `ThreadLocal<RefCell<Vec<T>>>` field of the pool: one stack of
spare values per thread that has touched the pool, as an association
list. -/
abbrev Storage (T : Type) := List (ThreadId × List T)

namespace Storage

/-- Look up the entry of thread `t` (first matching key). -/
def find {T : Type} (st : Storage T) (t : ThreadId) : Option (List T) :=
  match st with
  | [] => none
  | (t', vs) :: rest => if t' = t then some vs else find rest t

/-- The calling thread's stack of spare values; an untouched thread sees
the freshly initialized empty `Vec` (`init()` in lib.rs). -/
def onThread {T : Type} (st : Storage T) (t : ThreadId) : List T :=
  (st.find t).getD []

/-- `ThreadLocal::get_or(|| init())`: ensure thread `t` has an entry,
inserting an empty one if absent. -/
def getOr {T : Type} (st : Storage T) (t : ThreadId) : Storage T :=
  match st.find t with
  | some _ => st
  | none => st ++ [(t, [])]

/-- Replace thread `t`'s stack with `vs` (inserting the entry if the
thread had none: `get_or` followed by a mutation through the `RefCell`). -/
def set {T : Type} (st : Storage T) (t : ThreadId) (vs : List T) : Storage T :=
  match st with
  | [] => [(t, vs)]
  | (t', vs') :: rest =>
    if t' = t then (t, vs) :: rest else (t', vs') :: set rest t vs

/-- `Vec::push` on the calling thread's stack (head of the list is the
top of the stack). -/
def push {T : Type} (st : Storage T) (t : ThreadId) (v : T) : Storage T :=
  st.set t (v :: st.onThread t)

end Storage

/-- The `Recyclable` trait of recyclable.rs: a default constructor `new`
and a reset operation `recycle`. -/
class Recyclable (T : Type) where
  new : T
  recycle : T → T

/-- `impl Recyclable for String`: `new` is the empty string,
`recycle` is `String::clear`, which empties the string (the retained
backing capacity is not observable on the value). -/
instance : Recyclable String where
  new := ""
  recycle := fun _ => ""

/-- The `Pool<T>` struct of lib.rs: the builder settings relevant after
construction (the supplier) plus the per-thread storage. -/
structure Pool (T : Type) [Recyclable T] where
  supplier : Option (Unit → T)
  values : Storage T

/-- `PoolBuilder<T>` of builder.rs. -/
structure PoolBuilder (T : Type) [Recyclable T] where
  starting_size : Nat
  supplier : Option (Unit → T)

/-- `builder()` / `PoolBuilder::default()`: starting size 0, no
supplier. -/
def builder {T : Type} [Recyclable T] : PoolBuilder T :=
  { starting_size := 0, supplier := none }

namespace PoolBuilder

variable {T : Type} [Recyclable T]

/-- `PoolBuilder::with_starting_size`. -/
def with_starting_size (b : PoolBuilder T) (n : Nat) : PoolBuilder T :=
  { b with starting_size := n }

/-- `PoolBuilder::with_supplier`. -/
def with_supplier (b : PoolBuilder T) (s : Unit → T) : PoolBuilder T :=
  { b with supplier := some s }

/-- One fresh construction during `build`/`build_with`: the supplier if
configured, else `T::new()`. -/
def createValue (b : PoolBuilder T) : T :=
  match b.supplier with
  | some s => s ()
  | none => Recyclable.new

/-- The construction loop of `build`: push `n` freshly constructed
values onto the building thread's stack. -/
def pushFresh (b : PoolBuilder T) (st : Storage T) (t : ThreadId) : Nat → Storage T
  | 0 => st
  | n + 1 => b.pushFresh (st.push t b.createValue) t n

/-- `PoolBuilder::build`, run on building thread `t`: starts from empty
storage and pushes `starting_size` fresh values onto `t`'s stack. -/
def build (b : PoolBuilder T) (t : ThreadId) : Pool T :=
  { supplier := b.supplier, values := b.pushFresh [] t b.starting_size }

/-- `PoolBuilder::build_with`, run on building thread `t`: push the
given items in order onto `t`'s stack, then, when fewer items than
`starting_size` were given, top up with fresh constructions. -/
def build_with (b : PoolBuilder T) (items : List T) (t : ThreadId) : Pool T :=
  let st := items.foldl (fun st v => Storage.push st t v) ([] : Storage T)
  let st :=
    if items.length < b.starting_size then
      b.pushFresh st t (b.starting_size - items.length)
    else st
  { supplier := b.supplier, values := st }

end PoolBuilder

/-- The `Recycled<'a, T>` smart pointer: it exclusively owns the inner
value (the pool back-reference is passed explicitly to `drop`). -/
structure Recycled (T : Type) [Recyclable T] where
  value : T

namespace Pool

variable {T : Type} [Recyclable T]

/-- `Pool::create`: supplier if configured, else `T::new()`. -/
def create (p : Pool T) : T :=
  match p.supplier with
  | some s => s ()
  | none => Recyclable.new

/-- `Pool::size`, called on thread `t`: the length of the calling
thread's own stack (`self.values.get_or(|| init()).borrow().len()`;
the entry inserted by `get_or` is empty, so it contributes no length). -/
def size (p : Pool T) (t : ThreadId) : Nat :=
  (p.values.onThread t).length

/-- `Pool::get_raw_value`, called on thread `t`: pop the calling
thread's stack, constructing a fresh value when it is empty. Returns
the value together with the updated pool. -/
def get_raw_value (p : Pool T) (t : ThreadId) : T × Pool T :=
  match p.values.onThread t with
  | [] => (p.create, { p with values := p.values.getOr t })
  | v :: rest => (v, { p with values := p.values.set t rest })

/-- `Pool::get`, called on thread `t`: wrap the raw value in a
`Recycled` handle. -/
def get (p : Pool T) (t : ThreadId) : Recycled T × Pool T :=
  let r := p.get_raw_value t
  (⟨r.1⟩, r.2)

/-- `Pool::attach`: wrap a caller-supplied value in a handle without
touching storage. -/
def attach (p : Pool T) (v : T) : Recycled T × Pool T :=
  (⟨v⟩, p)

/-- `Pool::detached`, called on thread `t`: take a raw value out of the
pool; it will never be returned. -/
def detached (p : Pool T) (t : ThreadId) : T × Pool T :=
  p.get_raw_value t

/-- `Pool::return_value`, called on releasing thread `t`: recycle the
value, then push it onto the releasing thread's stack. -/
def return_value (p : Pool T) (t : ThreadId) (v : T) : Pool T :=
  { p with values := p.values.push t (Recyclable.recycle v) }

/-- The sum of the lengths of all per-thread stacks that have been
touched (what the spec asserts `size()` returns; the code does not
compute this). -/
def sumSizes (p : Pool T) : Nat :=
  (p.values.map (fun e => e.2.length)).sum

end Pool

namespace Recycled

variable {T : Type} [Recyclable T]

/-- `impl Drop for Recycled`: take the inner value out of the handle and
return it to the pool via `return_value`, on the dropping thread `t`. -/
def drop (r : Recycled T) (p : Pool T) (t : ThreadId) : Pool T :=
  p.return_value t r.value

/-- `impl Deref for Recycled`: the handle dereferences to the inner
value. -/
def deref (r : Recycled T) : T :=
  r.value

end Recycled

/-- A capacity-aware model of Rust `String`, for claims that observe the
backing allocation: `cap` models the capacity, `data` the logical
content. -/
structure StrBuf where
  cap : Nat
  data : String
deriving DecidableEq

/-- `String::with_capacity(n)`: empty content, capacity `n`. -/
def StrBuf.withCapacity (n : Nat) : StrBuf :=
  { cap := n, data := "" }

/-- `String::from(s)`: content `s`, capacity `s.length`. -/
def StrBuf.fromStr (s : String) : StrBuf :=
  { cap := s.length, data := s }

/-- The `String` instance of `Recyclable`, capacity-aware: `new` is
`String::new()` (capacity 0), `recycle` is `String::clear`, which
empties the content but keeps the capacity. -/
instance : Recyclable StrBuf where
  new := { cap := 0, data := "" }
  recycle := fun b => { cap := b.cap, data := "" }

/-- A pooled object with identity: `id` models the memory address of
the heap object (stable across `recycle`, which mutates in place),
`data` its mutable content. -/
structure Obj where
  id : Nat
  data : String
deriving DecidableEq

/-- `Recyclable` for identity-tagged objects: `recycle` clears the
content; the identity is necessarily preserved. `new` models a fresh
allocation (the model cannot mint fresh addresses, so theorems about
identity assume the fresh id differs from the tracked one). -/
instance : Recyclable Obj where
  new := { id := 0, data := "" }
  recycle := fun o => { id := o.id, data := "" }

/-- A pool together with the outstanding `Recycled` handles (in the
order they were acquired, newest first). -/
structure PState (T : Type) [Recyclable T] where
  pool : Pool T
  handles : List T

/-- One step of the acquire/release lifecycle, tagged with the thread
that performs it. -/
inductive PoolOp where
  | acquire (t : ThreadId)
  | release (t : ThreadId) (k : Nat)

/-- `acquire t` is `Pool::get` on thread `t`, keeping the handle alive;
`release t k` drops the `k`-th outstanding handle on thread `t`
(a no-op if there is no such handle). -/
def PState.step {T : Type} [Recyclable T] (s : PState T) (op : PoolOp) : PState T :=
  match op with
  | .acquire t =>
    let r := s.pool.get_raw_value t
    { pool := r.2, handles := r.1 :: s.handles }
  | .release t k =>
    match s.handles.get? k with
    | none => s
    | some v => { pool := s.pool.return_value t v, handles := s.handles.eraseIdx k }

/-- Run a sequence of acquire/release steps. -/
def PState.run {T : Type} [Recyclable T] (s : PState T) (ops : List PoolOp) : PState T :=
  ops.foldl PState.step s

/-- Does any value in storage carry id `i`? -/
def Storage.hasId (st : Storage Obj) (i : Nat) : Bool :=
  st.any (fun e => e.2.any (fun o => o.id == i))

/-- Id `i` occurs neither in the pool's storage nor in any outstanding
handle. -/
def PState.avoidsId (s : PState Obj) (i : Nat) : Bool :=
  !(s.pool.values.hasId i) && !(s.handles.any (fun o => o.id == i))

/-! ## Storage lemmas -/

theorem Storage.find_set_self {T : Type} (st : Storage T) (t : ThreadId) (vs : List T) :
    (st.set t vs).find t = some vs := by
  induction st with
  | nil => simp [Storage.set, Storage.find]
  | cons e rest ih =>
    obtain ⟨t', vs'⟩ := e
    by_cases h : t' = t <;> simp [Storage.set, Storage.find, h, ih]

theorem Storage.onThread_set {T : Type} (st : Storage T) (t : ThreadId) (vs : List T) :
    (st.set t vs).onThread t = vs := by
  simp [Storage.onThread, Storage.find_set_self]

theorem Storage.onThread_push {T : Type} (st : Storage T) (t : ThreadId) (v : T) :
    (st.push t v).onThread t = v :: st.onThread t := by
  simp [Storage.push, Storage.onThread_set]

theorem Storage.find_append_left_none {T : Type} (st st2 : Storage T) (t : ThreadId)
    (h : st.find t = none) : (st ++ st2).find t = st2.find t := by
  induction st with
  | nil => simp
  | cons e rest ih =>
    obtain ⟨t', vs'⟩ := e
    by_cases ht : t' = t
    · simp [Storage.find, ht] at h
    · simp only [Storage.find, ht, if_false, List.cons_append] at h ⊢
      exact ih h

theorem Storage.onThread_getOr {T : Type} (st : Storage T) (t : ThreadId) :
    (st.getOr t).onThread t = st.onThread t := by
  unfold Storage.getOr
  cases h : st.find t with
  | some vs => rfl
  | none => simp [Storage.onThread, Storage.find_append_left_none st _ t h, Storage.find, h]

theorem PoolBuilder.onThread_pushFresh {T : Type} [Recyclable T] (b : PoolBuilder T)
    (st : Storage T) (t : ThreadId) (n : Nat) :
    (b.pushFresh st t n).onThread t = List.replicate n b.createValue ++ st.onThread t := by
  induction n generalizing st with
  | zero => simp [PoolBuilder.pushFresh]
  | succ n ih =>
    rw [PoolBuilder.pushFresh, ih, Storage.onThread_push, List.replicate_succ']
    simp

theorem Storage.onThread_length_le_sum {T : Type} (st : Storage T) (t : ThreadId) :
    (st.onThread t).length ≤ (st.map (fun e => e.2.length)).sum := by
  induction st with
  | nil => simp [Storage.onThread, Storage.find]
  | cons e rest ih =>
    obtain ⟨t', vs⟩ := e
    by_cases h : t' = t
    · simp [Storage.onThread, Storage.find, h]
    · simp only [Storage.onThread, Storage.find, h, if_false, List.map_cons, List.sum_cons]
      simp only [Storage.onThread] at ih
      omega

theorem Storage.onThread_length_eq_sum {T : Type} (st : Storage T) (t : ThreadId)
    (hnd : (st.map Prod.fst).Nodup) (hempty : ∀ e ∈ st, e.1 ≠ t → e.2 = []) :
    (st.onThread t).length = (st.map (fun e => e.2.length)).sum := by
  induction st with
  | nil => simp [Storage.onThread, Storage.find]
  | cons e rest ih =>
    obtain ⟨t', vs⟩ := e
    rw [List.map_cons, List.nodup_cons] at hnd
    obtain ⟨hnotin, hndrest⟩ := hnd
    by_cases h : t' = t
    · subst h
      have hsum : (rest.map (fun e => e.2.length)).sum = 0 := by
        apply List.sum_eq_zero
        intro x hx
        rw [List.mem_map] at hx
        obtain ⟨e, he, hex⟩ := hx
        have he2 : e.2 = [] := by
          apply hempty e (List.mem_cons_of_mem _ he)
          intro hk
          exact hnotin (List.mem_map.mpr ⟨e, he, hk⟩)
        rw [← hex, he2]
        rfl
      simp [Storage.onThread, Storage.find, hsum]
    · have hvs : vs = [] := hempty (t', vs) (List.mem_cons_self _ _) h
      simp only [Storage.onThread, Storage.find, h, if_false, List.map_cons, List.sum_cons,
        hvs, List.length_nil]
      simp only [Storage.onThread] at ih
      rw [ih hndrest (fun e he ht => hempty e (List.mem_cons_of_mem _ he) ht)]
      simp

/-! ## Identity-tracking lemmas -/

theorem Storage.hasId_getOr (st : Storage Obj) (t : ThreadId) (i : Nat) :
    (st.getOr t).hasId i = st.hasId i := by
  unfold Storage.getOr
  cases h : st.find t with
  | some vs => rfl
  | none => simp [Storage.hasId, List.any_append]

theorem Storage.hasId_set_false (st : Storage Obj) (t : ThreadId) (vs : List Obj) (i : Nat)
    (hst : st.hasId i = false) (hvs : vs.any (fun o => o.id == i) = false) :
    (st.set t vs).hasId i = false := by
  induction st with
  | nil => simp [Storage.set, Storage.hasId, hvs]
  | cons e rest ih =>
    obtain ⟨t', vs'⟩ := e
    simp only [Storage.hasId, List.any_cons, Bool.or_eq_false_iff] at hst
    by_cases h : t' = t
    · simp only [Storage.set, h, if_true]
      simp [Storage.hasId, hvs, hst.2]
    · simp only [Storage.set, h, if_false]
      simp only [Storage.hasId, List.any_cons, Bool.or_eq_false_iff]
      exact ⟨hst.1, ih hst.2⟩

theorem Storage.onThread_any_false (st : Storage Obj) (t : ThreadId) (i : Nat)
    (hst : st.hasId i = false) :
    (st.onThread t).any (fun o => o.id == i) = false := by
  induction st with
  | nil => simp [Storage.onThread, Storage.find]
  | cons e rest ih =>
    obtain ⟨t', vs'⟩ := e
    simp only [Storage.hasId, List.any_cons, Bool.or_eq_false_iff] at hst
    by_cases h : t' = t
    · simp [Storage.onThread, Storage.find, h, hst.1]
    · simp only [Storage.onThread, Storage.find, h, if_false]
      exact ih hst.2

theorem Storage.hasId_push_false (st : Storage Obj) (t : ThreadId) (v : Obj) (i : Nat)
    (hst : st.hasId i = false) (hv : (v.id == i) = false) :
    (st.push t v).hasId i = false := by
  rw [Storage.push]
  exact Storage.hasId_set_false st t _ i hst
    (by simp [hv, Storage.onThread_any_false st t i hst])

theorem Pool.supplier_get_raw_value {T : Type} [Recyclable T] (p : Pool T) (t : ThreadId) :
    ((p.get_raw_value t).2).supplier = p.supplier := by
  rw [Pool.get_raw_value]
  cases p.values.onThread t <;> rfl

theorem Pool.create_eq_of_supplier {T : Type} [Recyclable T] (p q : Pool T)
    (h : p.supplier = q.supplier) : p.create = q.create := by
  rw [Pool.create, Pool.create, h]

theorem PState.supplier_step {T : Type} [Recyclable T] (s : PState T) (op : PoolOp) :
    ((s.step op).pool).supplier = s.pool.supplier := by
  cases op with
  | acquire t => simp [PState.step, Pool.supplier_get_raw_value]
  | release t k =>
    rw [PState.step]
    cases s.handles.get? k with
    | none => rfl
    | some v => rfl

theorem Pool.get_raw_value_avoid (p : Pool Obj) (t : ThreadId) (i : Nat)
    (hst : p.values.hasId i = false) (hc : (p.create).id ≠ i) :
    (((p.get_raw_value t).1.id == i) = false) ∧
    ((p.get_raw_value t).2).values.hasId i = false := by
  rw [Pool.get_raw_value]
  cases h : p.values.onThread t with
  | nil =>
    constructor
    · simp [hc]
    · simpa [Storage.hasId_getOr] using hst
  | cons v rest =>
    have hany := Storage.onThread_any_false p.values t i hst
    rw [h] at hany
    simp only [List.any_cons, Bool.or_eq_false_iff] at hany
    exact ⟨hany.1, Storage.hasId_set_false p.values t rest i hst hany.2⟩

theorem PState.avoidsId_step (s : PState Obj) (i : Nat) (op : PoolOp)
    (h : s.avoidsId i = true) (hc : (s.pool.create).id ≠ i) :
    (s.step op).avoidsId i = true := by
  simp only [PState.avoidsId, Bool.and_eq_true, Bool.not_eq_true'] at h
  obtain ⟨hpool, hhandles⟩ := h
  cases op with
  | acquire t =>
    obtain ⟨hv, hp⟩ := Pool.get_raw_value_avoid s.pool t i hpool hc
    simp only [PState.step, PState.avoidsId, Bool.and_eq_true, Bool.not_eq_true']
    exact ⟨hp, by simp [hv, hhandles]⟩
  | release t k =>
    rw [PState.step]
    cases hk : s.handles.get? k with
    | none => simp [PState.avoidsId, hpool, hhandles]
    | some v =>
      have hvmem : v ∈ s.handles := List.get?_mem hk
      have hvid : (v.id == i) = false := by
        by_contra hx
        rw [Bool.not_eq_false] at hx
        have hany : s.handles.any (fun o => o.id == i) = true :=
          List.any_eq_true.mpr ⟨v, hvmem, hx⟩
        rw [hhandles] at hany
        exact Bool.false_ne_true hany
      have herase : (s.handles.eraseIdx k).any (fun o => o.id == i) = false := by
        by_contra hx
        rw [Bool.not_eq_false, List.any_eq_true] at hx
        obtain ⟨o, ho, hoid⟩ := hx
        have homem : o ∈ s.handles := (List.eraseIdx_sublist s.handles k).subset ho
        have hany : s.handles.any (fun o => o.id == i) = true :=
          List.any_eq_true.mpr ⟨o, homem, hoid⟩
        rw [hhandles] at hany
        exact Bool.false_ne_true hany
      simp only [PState.avoidsId, Bool.and_eq_true, Bool.not_eq_true']
      refine ⟨?_, herase⟩
      exact Storage.hasId_push_false s.pool.values t _ i hpool hvid

theorem PState.avoidsId_run (s : PState Obj) (i : Nat) (ops : List PoolOp)
    (h : s.avoidsId i = true) (hc : (s.pool.create).id ≠ i) :
    (s.run ops).avoidsId i = true := by
  induction ops generalizing s with
  | nil => exact h
  | cons op ops ih =>
    rw [PState.run, List.foldl_cons]
    exact ih (s.step op) (PState.avoidsId_step s i op h hc)
      (by rw [Pool.create_eq_of_supplier _ s.pool (PState.supplier_step s op)]; exact hc)

/-! ## Claim theorems -/

/-- C3: a pool built with starting size `n` and no supplier reports
`size() == n` immediately after construction, when `size` is called on
the thread that built the pool; the build pre-populates that thread's
storage with `n` values produced by `Recyclable::new`. -/
theorem build_starting_size_size {T : Type} [Recyclable T] (n : Nat) (t : ThreadId) :
    ((builder.with_starting_size n : PoolBuilder T).build t).size t = n ∧
    ((builder.with_starting_size n : PoolBuilder T).build t).values.onThread t =
      List.replicate n (Recyclable.new : T) := by
  constructor
  · rw [Pool.size, PoolBuilder.build, PoolBuilder.onThread_pushFresh]
    simp [builder, PoolBuilder.with_starting_size, Storage.onThread, Storage.find]
  · rw [PoolBuilder.build, PoolBuilder.onThread_pushFresh]
    simp [builder, PoolBuilder.with_starting_size, PoolBuilder.createValue,
      Storage.onThread, Storage.find]

/-- C9: within a single thread's stack, release and re-acquisition are
LIFO: releasing `o1` then `o2` on thread `t` makes the next two acquires
on `t` return the recycled `o2` first and the recycled `o1` second. -/
theorem lifo_release_reacquire {T : Type} [Recyclable T] (p : Pool T) (t : ThreadId)
    (o1 o2 : T) :
    (((p.return_value t o1).return_value t o2).get_raw_value t).1 =
      Recyclable.recycle o2 ∧
    ((((p.return_value t o1).return_value t o2).get_raw_value t).2.get_raw_value t).1 =
      Recyclable.recycle o1 := by
  simp [Pool.return_value, Pool.get_raw_value, Storage.onThread_push, Storage.onThread_set]

/-- C8: `attach(value)` leaves `size()` unchanged at attach time (it
does not touch storage), and releasing the returned handle increases
`size()` by exactly one. -/
theorem attach_size_balance {T : Type} [Recyclable T] (p : Pool T) (t : ThreadId) (v : T) :
    ((p.attach v).2).size t = p.size t ∧
    (((p.attach v).1).drop ((p.attach v).2) t).size t = p.size t + 1 := by
  simp [Pool.attach, Recycled.drop, Pool.return_value, Pool.size, Storage.onThread_push]

/-- C10: the handle returned by `attach(v)` dereferences to exactly `v`
(neither the supplier nor `recycle` runs at attach time), and on release
the value is recycled before entering the releasing thread's storage. -/
theorem attach_deref_id {T : Type} [Recyclable T] (p : Pool T) (t : ThreadId) (v : T) :
    ((p.attach v).1).deref = v ∧
    (((p.attach v).1).drop ((p.attach v).2) t).values.onThread t =
      Recyclable.recycle v :: p.values.onThread t := by
  simp [Pool.attach, Recycled.deref, Recycled.drop, Pool.return_value, Storage.onThread_push]

/-- C1: for a pool of a `Recyclable` type whose `recycle` restores the
freshly-constructed default (as the trait contract requires, and as the
`String` instance does), acquiring, mutating with any `f`, releasing,
then acquiring again on the same thread yields the default, because the
drop glue recycles the value before it re-enters storage. -/
theorem reset_before_reuse {T : Type} [Recyclable T]
    (hrec : ∀ x : T, Recyclable.recycle x = Recyclable.new) (p : Pool T)
    (t : ThreadId) (f : T → T) :
    (((Recycled.mk (f ((p.get t).1.deref))).drop (p.get t).2 t).get t).1.deref =
      (Recyclable.new : T) := by
  simp [Pool.get, Recycled.drop, Recycled.deref, Pool.return_value, hrec]
  cases h : (p.get_raw_value t).2.values.onThread t with
  | nil =>
    simp [Pool.get_raw_value, Storage.onThread_push, h]
  | cons v rest =>
    simp [Pool.get_raw_value, Storage.onThread_push, h, hrec]

/-- C2 counterexample: on a pool whose calling-thread storage is empty
(starting size 0), `get` constructs a fresh value, so dropping the
handle grows `size()` from 0 to 1 rather than restoring it. -/
theorem acquire_release_size_counterexample :
    ¬ (((((builder : PoolBuilder String).build 0).get 0).1.drop
          (((builder : PoolBuilder String).build 0).get 0).2 0).size 0 =
        ((builder : PoolBuilder String).build 0).size 0) := by
  decide

/-- C2 amended: when the calling thread's storage is nonempty before
the acquire (so `get` pops rather than constructs), `get` immediately
followed by dropping the handle leaves `size()` unchanged. -/
theorem acquire_release_size_nonempty {T : Type} [Recyclable T] (p : Pool T)
    (t : ThreadId) (h : 0 < p.size t) :
    (((p.get t).1.drop (p.get t).2 t).size t = p.size t) := by
  obtain ⟨v, rest, hvr⟩ : ∃ v rest, p.values.onThread t = v :: rest := by
    cases hh : p.values.onThread t with
    | nil => rw [Pool.size, hh] at h; simp at h
    | cons a l => exact ⟨a, l, rfl⟩
  simp [Pool.get, Pool.get_raw_value, hvr, Recycled.drop, Pool.return_value, Pool.size,
    Storage.onThread_push, Storage.onThread_set]

/-- Witness for C2 amended: a string pool of starting size 3 keeps
`size() = 3` across an acquire/release round trip. -/
theorem acquire_release_size_nonempty_witness :
    ((((builder.with_starting_size 3 : PoolBuilder String).build 0).get 0).1.drop
        (((builder.with_starting_size 3 : PoolBuilder String).build 0).get 0).2 0).size 0 =
      ((builder.with_starting_size 3 : PoolBuilder String).build 0).size 0 :=
  acquire_release_size_nonempty ((builder.with_starting_size 3 : PoolBuilder String).build 0)
    0 (by decide)

/-- C4 counterexample: a pool built with one value on thread 0 reports
`size() = 0` when called from thread 1, while the sum of all per-thread
stacks is 1: `size()` is not the cross-thread sum. -/
theorem size_sum_counterexample :
    ¬ (((builder.with_starting_size 1 : PoolBuilder String).build 0).size 1 =
        ((builder.with_starting_size 1 : PoolBuilder String).build 0).sumSizes) := by
  decide

/-- C4 amended: `size()` returns the length of the calling thread's own
stack; it is bounded by the sum over all touched threads' stacks, and
it equals that sum precisely in the single-partition situation where
every other thread's stack is empty (thread keys being distinct, as the
thread-local map guarantees). -/
theorem size_vs_sumSizes {T : Type} [Recyclable T] (p : Pool T) (t : ThreadId) :
    p.size t ≤ p.sumSizes ∧
    ((p.values.map Prod.fst).Nodup → (∀ e ∈ p.values, e.1 ≠ t → e.2 = []) →
      p.size t = p.sumSizes) := by
  constructor
  · exact Storage.onThread_length_le_sum p.values t
  · intro hnd hempty
    exact Storage.onThread_length_eq_sum p.values t hnd hempty

/-- Witness for C4 amended: on the building thread of a two-value pool,
`size()` equals the sum over all partitions. -/
theorem size_vs_sumSizes_witness :
    ((builder.with_starting_size 2 : PoolBuilder String).build 0).size 0 =
      ((builder.with_starting_size 2 : PoolBuilder String).build 0).sumSizes :=
  (size_vs_sumSizes ((builder.with_starting_size 2 : PoolBuilder String).build 0) 0).2
    (by decide) (by decide)

/-- C5 counterexample: with supplier `String::from("test")` (as in the
repository's `test_supplier`), the first acquire returns content
`"test"`, not the fresh default content `""`: the supplier's output is
stored and returned without being recycled. -/
theorem supplier_default_content_counterexample :
    ¬ (((((builder.with_starting_size 4 : PoolBuilder StrBuf).with_supplier
            (fun _ => StrBuf.fromStr "test")).build 0).get_raw_value 0).1.data =
        (Recyclable.new : StrBuf).data) := by
  decide

/-- C5 amended: on a pool configured with a supplier, the first acquire
of a never-before-used slot (pre-filled or constructed on demand)
returns the supplier's output verbatim — so its capacity/configuration
is the supplier's, and its logical content equals the fresh default
only when the supplier itself produces default content. -/
theorem supplier_first_acquire {T : Type} [Recyclable T] (s : Unit → T) (n : Nat)
    (t : ThreadId) :
    ((((builder.with_starting_size n : PoolBuilder T).with_supplier s).build
        t).get_raw_value t).1 = s () := by
  have hb : (((builder.with_starting_size n : PoolBuilder T).with_supplier s).build
      t).values.onThread t = List.replicate n (s ()) := by
    rw [PoolBuilder.build, PoolBuilder.onThread_pushFresh]
    simp [builder, PoolBuilder.with_starting_size, PoolBuilder.with_supplier,
      PoolBuilder.createValue, Storage.onThread, Storage.find]
  cases n with
  | zero =>
    simp only [List.replicate_zero] at hb
    simp [Pool.get_raw_value, hb, Pool.create, PoolBuilder.build, builder,
      PoolBuilder.with_starting_size, PoolBuilder.with_supplier, PoolBuilder.pushFresh,
      Storage.onThread, Storage.find]
  | succ m =>
    rw [List.replicate_succ] at hb
    simp [Pool.get_raw_value, hb]

/-- C6: `build_with ["a","b","c"]` with no starting-size override gives
`size() = 3` and first acquire `"c"`; with `starting_size = 5` it gives
`size() = 5`, two freshly-constructed empty values, then `"c"`. -/
theorem build_with_behavior :
    ((builder : PoolBuilder String).build_with ["a", "b", "c"] 0).size 0 = 3 ∧
    (((builder : PoolBuilder String).build_with ["a", "b", "c"] 0).get_raw_value 0).1 = "c" ∧
    ((builder.with_starting_size 5 : PoolBuilder String).build_with
      ["a", "b", "c"] 0).size 0 = 5 ∧
    (((builder.with_starting_size 5 : PoolBuilder String).build_with
      ["a", "b", "c"] 0).get_raw_value 0).1 = "" ∧
    ((((builder.with_starting_size 5 : PoolBuilder String).build_with
      ["a", "b", "c"] 0).get_raw_value 0).2.get_raw_value 0).1 = "" ∧
    (((((builder.with_starting_size 5 : PoolBuilder String).build_with
      ["a", "b", "c"] 0).get_raw_value 0).2.get_raw_value 0).2.get_raw_value 0).1 = "c" := by
  decide

/-- Witness for C1: a string pool of starting size 2; acquire, append
`"test"`, release, re-acquire: the value is the empty string. -/
theorem reset_before_reuse_witness :
    (((Recycled.mk ((((builder.with_starting_size 2 : PoolBuilder String).build 0).get 0).1.deref ++
        "test")).drop (((builder.with_starting_size 2 : PoolBuilder String).build 0).get 0).2
        0).get 0).1.deref = (Recyclable.new : String) :=
  reset_before_reuse (fun _ => rfl)
    ((builder.with_starting_size 2 : PoolBuilder String).build 0) 0 (fun s => s ++ "test")

/-- C7 counterexample: on a pool whose calling-thread storage is empty,
`detached()` constructs a fresh value instead of popping one, so
`size()` stays 0 and is not decremented by one. -/
theorem detach_decrement_counterexample :
    ¬ ((((builder : PoolBuilder String).build 0).detached 0).2.size 0 + 1 =
        ((builder : PoolBuilder String).build 0).size 0) := by
  decide

/-- C7 amended: when the calling thread's storage is nonempty (top
value `v`), `detached()` returns `v`, decrements `size()` by exactly
one, and — provided `v`'s identity occurs nowhere else in the pool and
fresh constructions never reuse a live address — no sequence of later
acquire/release steps ever brings `v`'s identity back into storage or
into a handle, so no later acquire observes it. -/
theorem detached_gone (p : Pool Obj) (t : ThreadId) (v : Obj) (rest : List Obj)
    (ops : List PoolOp) (hst : p.values.onThread t = v :: rest)
    (havoid : PState.avoidsId { pool := (p.detached t).2, handles := [] } v.id = true)
    (hcreate : (p.create).id ≠ v.id) :
    (p.detached t).1 = v ∧
    (p.detached t).2.size t + 1 = p.size t ∧
    (PState.run { pool := (p.detached t).2, handles := [] } ops).avoidsId v.id = true := by
  refine ⟨?_, ?_, ?_⟩
  · simp [Pool.detached, Pool.get_raw_value, hst]
  · simp [Pool.detached, Pool.get_raw_value, hst, Pool.size, Storage.onThread_set]
  · apply PState.avoidsId_run _ _ _ havoid
    have hsup : ((p.detached t).2).supplier = p.supplier := Pool.supplier_get_raw_value p t
    rw [Pool.create_eq_of_supplier _ p hsup]
    exact hcreate

/-- Witness for C7 amended: a pool seeded with two identity-tagged
objects; detaching removes object 2, and a five-step acquire/release
trace (across two threads) never sees id 2 again. -/
theorem detached_gone_witness :
    (((builder : PoolBuilder Obj).build_with [Obj.mk 1 "a", Obj.mk 2 "b"] 0).detached 0).1 =
      Obj.mk 2 "b" ∧
    (((builder : PoolBuilder Obj).build_with [Obj.mk 1 "a", Obj.mk 2 "b"] 0).detached
        0).2.size 0 + 1 =
      ((builder : PoolBuilder Obj).build_with [Obj.mk 1 "a", Obj.mk 2 "b"] 0).size 0 ∧
    (PState.run
        { pool := (((builder : PoolBuilder Obj).build_with [Obj.mk 1 "a", Obj.mk 2 "b"]
            0).detached 0).2,
          handles := [] }
        [PoolOp.acquire 0, PoolOp.release 0 0, PoolOp.acquire 0, PoolOp.acquire 1,
          PoolOp.release 1 0]).avoidsId (Obj.mk 2 "b").id = true :=
  detached_gone ((builder : PoolBuilder Obj).build_with [Obj.mk 1 "a", Obj.mk 2 "b"] 0) 0
    (Obj.mk 2 "b") [Obj.mk 1 "a"]
    [PoolOp.acquire 0, PoolOp.release 0 0, PoolOp.acquire 0, PoolOp.acquire 1,
      PoolOp.release 1 0]
    (by decide) (by decide) (by decide)

end Swimmer
